import Mathlib

/-!
Verification of the lyricize word-resolution engine (src/index.ts).

Strings are modelled as `List Char` (`Str`); only ASCII behaviour is
relevant to the properties below, and `Char.toLower`/`Char.toUpper`
agree with the JS `toLowerCase`/`toUpperCase` on ASCII.  The
pronunciation dictionary (`data`, loaded from an external JSON file) is
modelled as an abstract lookup function `Dict := Str → Option WordData`,
as the design notes require ("an explicitly constructed immutable value
passed into the resolver").

The JS code has exactly one spot that can raise a runtime error:
in the `d`-suffix branch, `lastSyllable.slice(0, -1)` is evaluated on
`newSyllables[newSyllables.length - 1]`, which is `undefined` when the
dictionary entry found for the base has an empty `syllables` array.
That possibility is modelled by `Option`-valued results, `none` standing
for the thrown `TypeError`.  Everywhere else JS is total: in the
`s`-suffix branch `undefined + 's'` coerces to the string
`"undefineds"`, which is modelled faithfully by `jsLastStr`.
-/

/-- Strings as lists of characters. -/
abbrev Str := List Char

/-- The record produced per word (interface `WordData` in src/index.ts,
called `SyllableRecord` in the design document). -/
structure WordData where
  syllables : List Str
  hyphenated : Str
  stresses : List Nat
  isKnown : Bool
deriving DecidableEq

/-- The pronunciation dictionary `data`: lowercase headword to entry. -/
def Dict : Type := Str → Option WordData

/-- JS `\s` on the ASCII range (whitespace characters used by `split`). -/
def isWS (c : Char) : Bool :=
  c = ' ' || c = '\t' || c = '\n' || c = '\r' || c = '\x0b' || c = '\x0c'

/-- ASCII letter test: the character classes `a-z`, `A-Z` used by the
decoration-stripping regular expressions. -/
def isAsciiLetter (c : Char) : Bool :=
  ('a' ≤ c && c ≤ 'z') || ('A' ≤ c && c ≤ 'Z')

/-- JS `toLowerCase` (ASCII fragment). -/
def toLowerStr (s : Str) : Str := s.map Char.toLower

/-- JS `toUpperCase` (ASCII fragment). -/
def toUpperStr (s : Str) : Str := s.map Char.toUpper

/-- `capitalize` from src/index.ts: `str.charAt(0).toUpperCase() + str.slice(1)`. -/
def capitalize (s : Str) : Str :=
  match s with
  | [] => []
  | c :: rest => c.toUpper :: rest

/-- `preserveCase` from src/index.ts. -/
def preserveCase (original hyphenated cleanOriginal : Str) : Str :=
  if toLowerStr original = cleanOriginal then
    if original = toUpperStr original then toUpperStr hyphenated
    else if original = capitalize (toLowerStr original) then capitalize hyphenated
    else hyphenated
  else hyphenated

mutual
/-- Accumulating part of JS `lyrics.split(/\s+/)`: collecting the current
token (in reverse) until whitespace or the end of input. -/
def splitWSAux (acc : Str) : Str → List Str
  | [] => [acc.reverse]
  | c :: rest =>
    if isWS c then acc.reverse :: skipWS rest else splitWSAux (c :: acc) rest

/-- Skipping part of JS `split(/\s+/)`: consuming the rest of a maximal
whitespace run (the regex `\s+` is greedy). -/
def skipWS : Str → List Str
  | [] => [[]]
  | c :: rest => if isWS c then skipWS rest else splitWSAux [c] rest
end

/-- JS `lyrics.split(/\s+/)`: tokens between maximal whitespace runs,
with empty tokens for leading and trailing whitespace. -/
def splitWS (s : Str) : List Str := splitWSAux [] s

/-- Worker for JS `String.prototype.split` with a one-character separator. -/
def splitOnCharAux (sep : Char) (acc : Str) : Str → List Str
  | [] => [acc.reverse]
  | c :: rest =>
    if c = sep then acc.reverse :: splitOnCharAux sep [] rest
    else splitOnCharAux sep (c :: acc) rest

/-- JS `s.split(sep)` for a one-character separator (used as `split('-')`). -/
def splitOnChar (sep : Char) (s : Str) : List Str := splitOnCharAux sep [] s

/-- JS `Array.prototype.join` with a one-character separator. -/
def joinSep (sep : Char) : List Str → Str
  | [] => []
  | [s] => s
  | s :: rest => s ++ sep :: joinSep sep rest

/-- Concatenation of a list of lists (JS `flatMap` is `joinAll` of `map`). -/
def joinAll : List (List α) → List α
  | [] => []
  | l :: ls => l ++ joinAll ls

/-- JS `Array.prototype.map` over a callback that can throw: `none` means
the whole map throws. -/
def mapOpt (f : α → Option β) : List α → Option (List β)
  | [] => some []
  | a :: as =>
    match f a, mapOpt f as with
    | some b, some bs => some (b :: bs)
    | _, _ => none

/-- JS `s.slice(0, -n)` for `n ≥ 0`: drop the last `n` characters. -/
def dropLastN (s : Str) (n : Nat) : Str := s.take (s.length - n)

/-- JS `s.endsWith(sfx)`. -/
def endsWith (s sfx : Str) : Bool := sfx.isSuffixOf s

/-- JS `arr[arr.length - 1]` followed by string concatenation: on an empty
array the index read yields `undefined`, which `+` coerces to the string
`"undefined"`. -/
def jsLastStr (l : List Str) : Str :=
  (l.getLast?).getD ['u','n','d','e','f','i','n','e','d']

/-- One entry of the `suffixes` table in `processWord`. -/
structure SuffixRule where
  sfx : Str
  replace : Str
  syllable : Option Str
deriving DecidableEq

/-- The `suffixes` table of `processWord`, in source order. -/
def suffixes : List SuffixRule :=
  [ ⟨['s'], [], none⟩,
    ⟨['e','s'], [], some ['e','s']⟩,
    ⟨['e','d'], [], some ['e','d']⟩,
    ⟨['i','n','g'], [], some ['i','n','g']⟩,
    ⟨['l','y'], [], some ['l','y']⟩,
    ⟨['d'], [], none⟩ ]

/-- The reconstruction body of the suffix loop in `processWord`, run once a
dictionary entry for the base has been found.  `none` models the JS
`TypeError` raised by `lastSyllable.slice(0, -1)` when the entry's
`syllables` array is empty (so the index read was `undefined`). -/
def reconstruct (original cleanWord : Str) (r : SuffixRule) (wordData : WordData) :
    Option WordData :=
  if r.sfx = ['s'] then
    some { wordData with
            syllables := wordData.syllables.dropLast ++ [jsLastStr wordData.syllables ++ ['s']],
            hyphenated := preserveCase original (wordData.hyphenated ++ ['s']) cleanWord,
            stresses := wordData.stresses }
  else if r.sfx = ['d'] && endsWith cleanWord ['e','d'] then
    match wordData.syllables.getLast? with
    | none => none
    | some lastSyllable =>
        some { wordData with
                syllables := wordData.syllables.dropLast ++ [dropLastN lastSyllable 1, ['e','d']],
                hyphenated := preserveCase original
                  (dropLastN wordData.hyphenated 1 ++ ['-','e','d']) cleanWord,
                stresses := wordData.stresses ++ [0] }
  else
    match r.syllable with
    | some syl =>
        some { wordData with
                syllables := wordData.syllables ++ [syl],
                hyphenated := preserveCase original (joinSep '-' (wordData.syllables ++ [syl])) cleanWord,
                stresses := wordData.stresses ++ [0] }
    | none =>
        some { wordData with
                hyphenated := preserveCase original wordData.hyphenated cleanWord }

/-- One iteration of the suffix loop: `some none` means this rule did not
produce an entry (no match, or base absent), `some (some wd)` means the
loop breaks with `wd`, and `none` models a thrown `TypeError`. -/
def tryRule (d : Dict) (original cleanWord : Str) (r : SuffixRule) :
    Option (Option WordData) :=
  if endsWith cleanWord r.sfx then
    match d (dropLastN cleanWord r.sfx.length ++ r.replace) with
    | some wordData =>
        match reconstruct original cleanWord r wordData with
        | none => none
        | some wd => some (some wd)
    | none => some none
  else some none

/-- The `for (const {suffix, replace, syllable} of suffixes)` loop of
`processWord`, with early exit on the first rule that finds a base. -/
def applySuffix (d : Dict) (original cleanWord : Str) :
    List SuffixRule → Option (Option WordData)
  | [] => some none
  | r :: rest =>
    match tryRule d original cleanWord r with
    | none => none
    | some (some wd) => some (some wd)
    | some none => applySuffix d original cleanWord rest

/-- `processWord` from src/index.ts.  `none` models a thrown `TypeError`. -/
def processWord (d : Dict) (original pre suf : Str) : Option WordData :=
  let cleanWord := toLowerStr original
  if cleanWord = [] then
    some ⟨[pre ++ original ++ suf], pre ++ original ++ suf, [0], false⟩
  else
    match d cleanWord with
    | some wordData =>
        some { wordData with
                hyphenated := pre ++ preserveCase original wordData.hyphenated cleanWord ++ suf,
                isKnown := true }
    | none =>
        match applySuffix d original cleanWord suffixes with
        | none => none
        | some (some wordData) =>
            some { wordData with
                    hyphenated := pre ++ preserveCase original wordData.hyphenated cleanWord ++ suf,
                    isKnown := true }
        | some none => some ⟨[original], pre ++ original ++ suf, [0], false⟩

/-- `originalWord.match(/^[^a-zA-Z]*/)?.[0] || ''`: maximal leading run of
non-letters. -/
def prefixOf (w : Str) : Str := w.takeWhile (fun c => !isAsciiLetter c)

/-- `originalWord.match(/[^a-zA-Z]*$/)?.[0] || ''`: maximal trailing run of
non-letters. -/
def suffixOf (w : Str) : Str := (w.reverse.takeWhile (fun c => !isAsciiLetter c)).reverse

/-- `originalWord.replace(/[^a-zA-Z-]/g, '')`: letters and hyphens only. -/
def cleanOf (w : Str) : Str := w.filter (fun c => isAsciiLetter c || c = '-')

/-- The body of the `map` callback in `lyricize`: resolution of one
whitespace-delimited token. -/
def processToken (d : Dict) (originalWord : Str) : Option WordData :=
  if originalWord = [] then some ⟨[], [], [], false⟩
  else
    let pre := prefixOf originalWord
    let suf := suffixOf originalWord
    let cleanWord := cleanOf originalWord
    if cleanWord = [] then some ⟨[originalWord], originalWord, [0], false⟩
    else if cleanWord.contains '-' then
      match mapOpt (fun part => processWord d part [] [])
              ((splitOnChar '-' cleanWord).filter (fun p => !p.isEmpty)) with
      | none => none
      | some partResults =>
          some ⟨joinAll (partResults.map WordData.syllables),
                pre ++ preserveCase originalWord
                        (joinSep '-' (partResults.map WordData.hyphenated)) cleanWord ++ suf,
                joinAll (partResults.map WordData.stresses),
                partResults.all WordData.isKnown⟩
    else processWord d cleanWord pre suf

/-- `lyricize` from src/index.ts, parametrised by the dictionary. -/
def lyricize (d : Dict) (lyrics : Str) : Option (List WordData) :=
  mapOpt (processToken d) (splitWS lyrics)

/-- The empty dictionary. -/
def emptyDict : Dict := fun _ => none

/-- A sample dictionary holding the entries the design document's expected
scenarios presuppose (hello, life, renew, sing, song, translate, bright,
pre, post). -/
def sampleEntries : List (Str × WordData) :=
  [ (['h','e','l','l','o'], ⟨[['h','e','l'],['l','o']], ['h','e','l','-','l','o'], [2,0], true⟩),
    (['l','i','f','e'], ⟨[['l','i','f','e']], ['l','i','f','e'], [0], true⟩),
    (['r','e','n','e','w'], ⟨[['r','e'],['n','e','w']], ['r','e','-','n','e','w'], [0,2], true⟩),
    (['s','i','n','g'], ⟨[['s','i','n','g']], ['s','i','n','g'], [2], true⟩),
    (['s','o','n','g'], ⟨[['s','o','n','g']], ['s','o','n','g'], [0], true⟩),
    (['t','r','a','n','s','l','a','t','e'],
      ⟨[['t','r','a','n','s'],['l','a','t','e']], ['t','r','a','n','s','-','l','a','t','e'], [0,0], true⟩),
    (['b','r','i','g','h','t'], ⟨[['b','r','i','g','h','t']], ['b','r','i','g','h','t'], [2], true⟩),
    (['p','r','e'], ⟨[['p','r','e']], ['p','r','e'], [0], true⟩),
    (['p','o','s','t'], ⟨[['p','o','s','t']], ['p','o','s','t'], [0], true⟩) ]

/-- Lookup into `sampleEntries`. -/
def sampleDict : Dict := fun w =>
  (sampleEntries.find? (fun p => p.1 = w)).map (fun p => p.2)

/-! ### Basic lemmas about the list helpers -/

theorem mapOpt_length {f : α → Option β} {xs : List α} {ys : List β}
    (h : mapOpt f xs = some ys) : ys.length = xs.length := by
  induction xs generalizing ys with
  | nil => simp [mapOpt] at h; simp [← h]
  | cons a as ih =>
    simp only [mapOpt] at h
    cases hfa : f a with
    | none => rw [hfa] at h; simp at h
    | some b =>
      rw [hfa] at h
      cases hrest : mapOpt f as with
      | none => rw [hrest] at h; simp at h
      | some bs =>
        rw [hrest] at h
        simp only [Option.some.injEq] at h
        subst h
        simp [ih hrest]

theorem mapOpt_get? {f : α → Option β} {xs : List α} {ys : List β}
    (h : mapOpt f xs = some ys) (i : Nat) {a : α} (ha : xs.get? i = some a) :
    ∃ b, ys.get? i = some b ∧ f a = some b := by
  induction xs generalizing ys i with
  | nil => simp at ha
  | cons x xs ih =>
    simp only [mapOpt] at h
    cases hfa : f x with
    | none => rw [hfa] at h; simp at h
    | some b =>
      rw [hfa] at h
      cases hrest : mapOpt f xs with
      | none => rw [hrest] at h; simp at h
      | some bs =>
        rw [hrest] at h
        simp only [Option.some.injEq] at h
        subst h
        cases i with
        | zero =>
          simp only [List.get?, Option.some.injEq] at ha
          subst ha
          exact ⟨b, rfl, hfa⟩
        | succ n =>
          simp only [List.get?] at ha ⊢
          exact ih hrest n ha

theorem mapOpt_mem {f : α → Option β} {xs : List α} {ys : List β}
    (h : mapOpt f xs = some ys) {y : β} (hy : y ∈ ys) :
    ∃ x ∈ xs, f x = some y := by
  induction xs generalizing ys with
  | nil => simp [mapOpt] at h; subst h; simp at hy
  | cons a as ih =>
    simp only [mapOpt] at h
    cases hfa : f a with
    | none => rw [hfa] at h; simp at h
    | some b =>
      rw [hfa] at h
      cases hrest : mapOpt f as with
      | none => rw [hrest] at h; simp at h
      | some bs =>
        rw [hrest] at h
        simp only [Option.some.injEq] at h
        subst h
        rcases List.mem_cons.mp hy with hb | hb
        · exact ⟨a, List.mem_cons_self a as, by rw [hfa, hb]⟩
        · rcases ih hrest hb with ⟨x, hx, hfx⟩
          exact ⟨x, List.mem_cons_of_mem a hx, hfx⟩

theorem mapOpt_isSome {f : α → Option β} {xs : List α}
    (h : ∀ a ∈ xs, f a ≠ none) : mapOpt f xs ≠ none := by
  induction xs with
  | nil => simp [mapOpt]
  | cons a as ih =>
    simp only [mapOpt]
    cases hfa : f a with
    | none => exact absurd hfa (h a (List.mem_cons_self a as))
    | some b =>
      cases hrest : mapOpt f as with
      | none => exact absurd hrest (ih (fun x hx => h x (List.mem_cons_of_mem a hx)))
      | some bs => simp

theorem joinAll_length (ls : List (List α)) :
    (joinAll ls).length = (ls.map List.length).sum := by
  induction ls with
  | nil => rfl
  | cons l ls ih => simp [joinAll, ih]

theorem preserveCase_nil (o c : Str) : preserveCase o [] c = [] := by
  unfold preserveCase toUpperStr capitalize
  split <;> [skip; rfl]
  split <;> [rfl; skip]
  split <;> rfl

theorem preserveCase_id {o c : Str} (x : Str)
    (h : toLowerStr o = c → o ≠ toUpperStr o ∧ o ≠ capitalize (toLowerStr o)) :
    preserveCase o x c = x := by
  unfold preserveCase
  split
  · rename_i hg
    rcases h hg with ⟨h1, h2⟩
    rw [if_neg h1, if_neg h2]
  · rfl

/-! ### Totality: under a dictionary whose entries all have a non-empty
syllable list, no execution path reaches the JS `TypeError`. -/

/-- Zeta-reduced unfolding of `processWord` (for case analysis). -/
theorem processWord_eq (d : Dict) (o p s : Str) :
    processWord d o p s =
      if toLowerStr o = [] then
        some ⟨[p ++ o ++ s], p ++ o ++ s, [0], false⟩
      else
        match d (toLowerStr o) with
        | some wordData =>
            some { wordData with
                    hyphenated := p ++ preserveCase o wordData.hyphenated (toLowerStr o) ++ s,
                    isKnown := true }
        | none =>
            match applySuffix d o (toLowerStr o) suffixes with
            | none => none
            | some (some wordData) =>
                some { wordData with
                        hyphenated := p ++ preserveCase o wordData.hyphenated (toLowerStr o) ++ s,
                        isKnown := true }
            | some none => some ⟨[o], p ++ o ++ s, [0], false⟩ := rfl

/-- Zeta-reduced unfolding of `processToken` (for case analysis). -/
theorem processToken_eq (d : Dict) (tok : Str) :
    processToken d tok =
      if tok = [] then some ⟨[], [], [], false⟩
      else if cleanOf tok = [] then some ⟨[tok], tok, [0], false⟩
      else if (cleanOf tok).contains '-' then
        match mapOpt (fun part => processWord d part [] [])
                ((splitOnChar '-' (cleanOf tok)).filter (fun p => !p.isEmpty)) with
        | none => none
        | some partResults =>
            some ⟨joinAll (partResults.map WordData.syllables),
                  prefixOf tok ++ preserveCase tok
                    (joinSep '-' (partResults.map WordData.hyphenated)) (cleanOf tok) ++ suffixOf tok,
                  joinAll (partResults.map WordData.stresses),
                  partResults.all WordData.isKnown⟩
      else processWord d (cleanOf tok) (prefixOf tok) (suffixOf tok) := rfl

theorem reconstruct_ne_none {o c : Str} {r : SuffixRule} {wd : WordData}
    (h : wd.syllables ≠ []) : reconstruct o c r wd ≠ none := by
  unfold reconstruct
  split
  · simp
  · split
    · cases hl : wd.syllables.getLast? with
      | none => exact absurd (List.getLast?_eq_none_iff.mp hl) h
      | some last => simp [hl]
    · cases hs : r.syllable <;> simp [hs]

theorem tryRule_ne_none {d : Dict} {o c : Str} {r : SuffixRule}
    (hwf : ∀ w e, d w = some e → e.syllables ≠ []) : tryRule d o c r ≠ none := by
  unfold tryRule
  split
  · cases hd : d (dropLastN c r.sfx.length ++ r.replace) with
    | none => simp
    | some wd =>
      cases hr : reconstruct o c r wd with
      | none => exact absurd hr (reconstruct_ne_none (hwf _ _ hd))
      | some wd' => simp [hr]
  · simp

theorem applySuffix_ne_none {d : Dict} {o c : Str}
    (hwf : ∀ w e, d w = some e → e.syllables ≠ []) :
    ∀ rules : List SuffixRule, applySuffix d o c rules ≠ none := by
  intro rules
  induction rules with
  | nil => simp [applySuffix]
  | cons r rest ih =>
    unfold applySuffix
    cases ht : tryRule d o c r with
    | none => exact absurd ht (tryRule_ne_none hwf)
    | some ow => cases ow <;> simp [ih]

theorem processWord_ne_none {d : Dict} {o p s : Str}
    (hwf : ∀ w e, d w = some e → e.syllables ≠ []) :
    processWord d o p s ≠ none := by
  rw [processWord_eq]
  split
  · simp
  · split
    · simp
    · split
      · rename_i ha
        exact absurd ha (applySuffix_ne_none hwf suffixes)
      · simp
      · simp

theorem processToken_ne_none {d : Dict} {tok : Str}
    (hwf : ∀ w e, d w = some e → e.syllables ≠ []) :
    processToken d tok ≠ none := by
  rw [processToken_eq]
  split
  · simp
  · split
    · simp
    · split
      · split
        · rename_i hm
          exact absurd hm (mapOpt_isSome (fun a _ => processWord_ne_none hwf))
        · simp
      · exact processWord_ne_none hwf

theorem lyricize_ne_none {d : Dict} {s : Str}
    (hwf : ∀ w e, d w = some e → e.syllables ≠ []) :
    lyricize d s ≠ none :=
  mapOpt_isSome (fun _ _ => processToken_ne_none hwf)

/-! ### The syllable/stress length invariant -/

theorem reconstruct_lengths {o c : Str} {r : SuffixRule} {wd wd' : WordData}
    (hlen : wd.syllables.length = wd.stresses.length)
    (hne : wd.syllables ≠ [])
    (h : reconstruct o c r wd = some wd') :
    wd'.syllables.length = wd'.stresses.length := by
  have hpos : 0 < wd.syllables.length := List.length_pos.mpr hne
  unfold reconstruct at h
  split at h
  · simp only [Option.some.injEq] at h
    subst h
    simp only [List.length_append, List.length_dropLast, List.length_singleton]
    omega
  · split at h
    · split at h
      · exact absurd h (by simp)
      · simp only [Option.some.injEq] at h
        subst h
        simp only [List.length_append, List.length_dropLast, List.length_cons,
          List.length_singleton, List.length_nil]
        omega
    · split at h
      · simp only [Option.some.injEq] at h
        subst h
        simp only [List.length_append, List.length_singleton]
        omega
      · simp only [Option.some.injEq] at h
        subst h
        simpa using hlen

theorem applySuffix_lengths {d : Dict} {o c : Str} {wd' : WordData}
    (hwf : ∀ w e, d w = some e →
      e.syllables.length = e.stresses.length ∧ e.syllables ≠ []) :
    ∀ rules : List SuffixRule, applySuffix d o c rules = some (some wd') →
    wd'.syllables.length = wd'.stresses.length := by
  intro rules
  induction rules with
  | nil => intro h; simp [applySuffix] at h
  | cons r rest ih =>
    intro h
    unfold applySuffix at h
    split at h
    · exact absurd h (by simp)
    · rename_i wd'' ht
      simp only [Option.some.injEq] at h
      subst h
      unfold tryRule at ht
      split at ht
      · split at ht
        · rename_i wd hd
          split at ht
          · exact absurd ht (by simp)
          · rename_i w hr
            simp only [Option.some.injEq] at ht
            subst ht
            exact reconstruct_lengths (hwf _ _ hd).1 (hwf _ _ hd).2 hr
        · exact absurd ht (by simp)
      · exact absurd ht (by simp)
    · exact ih h

theorem processWord_lengths {d : Dict} {o p s : Str} {r : WordData}
    (hwf : ∀ w e, d w = some e →
      e.syllables.length = e.stresses.length ∧ e.syllables ≠ [])
    (h : processWord d o p s = some r) :
    r.syllables.length = r.stresses.length := by
  rw [processWord_eq] at h
  split at h
  · simp only [Option.some.injEq] at h; subst h; rfl
  · split at h
    · rename_i wd hd
      simp only [Option.some.injEq] at h
      subst h
      exact (hwf _ _ hd).1
    · split at h
      · exact absurd h (by simp)
      · rename_i wd ha
        simp only [Option.some.injEq] at h
        subst h
        have h2 := applySuffix_lengths hwf suffixes ha
        simpa using h2
      · simp only [Option.some.injEq] at h; subst h; rfl

theorem processToken_lengths {d : Dict} {tok : Str} {r : WordData}
    (hwf : ∀ w e, d w = some e →
      e.syllables.length = e.stresses.length ∧ e.syllables ≠ [])
    (h : processToken d tok = some r) :
    r.syllables.length = r.stresses.length := by
  rw [processToken_eq] at h
  split at h
  · simp only [Option.some.injEq] at h; subst h; rfl
  · split at h
    · simp only [Option.some.injEq] at h; subst h; rfl
    · split at h
      · split at h
        · exact absurd h (by simp)
        · rename_i rs hm
          simp only [Option.some.injEq] at h
          subst h
          simp only [joinAll_length, List.map_map]
          congr 1
          apply List.map_congr_left
          intro res hres
          rcases mapOpt_mem hm hres with ⟨part, _, hpart⟩
          exact processWord_lengths hwf hpart
      · exact processWord_lengths hwf h

/-- A dictionary whose entries all satisfy the length equality of claim C1's
precondition, yet with an empty syllable list in one entry. -/
def lenOnlyDict : Dict := fun w =>
  if w = ['x'] then some ⟨[], [], [], true⟩ else none

/-- `sampleDict` entries have equally long, non-empty syllable and stress
lists. -/
theorem sampleDict_wf : ∀ w e, sampleDict w = some e →
    e.syllables.length = e.stresses.length ∧ e.syllables ≠ [] := by
  intro w e h
  unfold sampleDict at h
  rcases Option.map_eq_some'.mp h with ⟨q, hq, hqe⟩
  have hmem := List.mem_of_find?_eq_some hq
  subst hqe
  have hall : ∀ q ∈ sampleEntries,
      q.2.syllables.length = q.2.stresses.length ∧ q.2.syllables ≠ [] := by decide
  exact hall q hmem

/-- Claim C1, counterexample: `lenOnlyDict` satisfies the claim's stated
precondition (every entry has equally long syllables and stresses lists),
yet on input "xs" the output record has one syllable (the JS artefact
"undefineds") and no stresses. -/
theorem C1_cex :
    (∀ w e, lenOnlyDict w = some e → e.syllables.length = e.stresses.length)
    ∧ ∃ l r, lyricize lenOnlyDict ['x','s'] = some l ∧ r ∈ l
        ∧ r.syllables.length ≠ r.stresses.length := by
  constructor
  · intro w e h
    unfold lenOnlyDict at h
    split at h
    · simp only [Option.some.injEq] at h
      subst h
      rfl
    · exact absurd h (by simp)
  · exact ⟨[⟨[['u','n','d','e','f','i','n','e','d','s']], ['s'], [], true⟩],
      ⟨[['u','n','d','e','f','i','n','e','d','s']], ['s'], [], true⟩,
      by decide, by decide, by decide⟩

/-- Claim C1 (amended): for every input string and every record in the
output of `lyricize`, the syllables list and the stresses list have equal
length, under the precondition that every dictionary entry has equally
long syllables and stresses lists AND a non-empty syllables list. -/
theorem C1_thm (d : Dict) (s : Str) (l : List WordData)
    (hwf : ∀ w e, d w = some e →
      e.syllables.length = e.stresses.length ∧ e.syllables ≠ [])
    (h : lyricize d s = some l) :
    ∀ r ∈ l, r.syllables.length = r.stresses.length := by
  intro r hr
  rcases mapOpt_mem h hr with ⟨tok, _, htok⟩
  exact processToken_lengths hwf htok

/-- Claim C1, witness: the amended claim applied to `sampleDict` and the
input "singing". -/
theorem C1_witness :
    (∀ w e, sampleDict w = some e →
      e.syllables.length = e.stresses.length ∧ e.syllables ≠ [])
    ∧ lyricize sampleDict ['s','i','n','g','i','n','g'] =
        some [⟨[['s','i','n','g'],['i','n','g']], ['s','i','n','g','-','i','n','g'], [2,0], true⟩]
    ∧ ∀ r ∈ ([⟨[['s','i','n','g'],['i','n','g']], ['s','i','n','g','-','i','n','g'], [2,0], true⟩] :
        List WordData), r.syllables.length = r.stresses.length :=
  ⟨sampleDict_wf, by decide,
    C1_thm sampleDict ['s','i','n','g','i','n','g'] _ sampleDict_wf (by decide)⟩

/-- For the token "hello" no suffix rule matches, so `processWord` cannot
reach the throwing branch whatever the dictionary holds. -/
theorem processWord_hello_ne_none (d : Dict) :
    processWord d ['h','e','l','l','o'] [] [] ≠ none := by
  have hsfx : applySuffix d ['h','e','l','l','o'] (toLowerStr ['h','e','l','l','o']) suffixes
      = some none := rfl
  rw [processWord_eq]
  rw [if_neg (by decide : ¬ (toLowerStr ['h','e','l','l','o'] = ([] : Str)))]
  cases hd : d (toLowerStr ['h','e','l','l','o']) with
  | some wd => simp
  | none => simp [hsfx]

/-- Claim C2: lyricize returns one record per whitespace-split token of the
input, in input order; each empty token maps to the empty record; the
input "  hello  " yields three records with empty first and last. -/
theorem C2_thm (d : Dict) (s : Str) (l : List WordData) (h : lyricize d s = some l) :
    l.length = (splitWS s).length
    ∧ (∀ i a, (splitWS s).get? i = some a → ∃ r, l.get? i = some r ∧ processToken d a = some r)
    ∧ (∀ i, (splitWS s).get? i = some [] → l.get? i = some ⟨[], [], [], false⟩)
    ∧ ∃ l₂, lyricize d [' ',' ','h','e','l','l','o',' ',' '] = some l₂
        ∧ l₂.length = 3
        ∧ l₂.get? 0 = some ⟨[], [], [], false⟩
        ∧ l₂.get? 2 = some ⟨[], [], [], false⟩ := by
  refine ⟨mapOpt_length h, ?_, ?_, ?_⟩
  · intro i a ha
    exact mapOpt_get? h i ha
  · intro i ha
    rcases mapOpt_get? h i ha with ⟨r, hr, hpt⟩
    have hempty : processToken d [] = some ⟨[], [], [], false⟩ := rfl
    rw [hempty] at hpt
    simp only [Option.some.injEq] at hpt
    rw [hr, ← hpt]
  · cases hh : processWord d ['h','e','l','l','o'] [] [] with
    | none => exact absurd hh (processWord_hello_ne_none d)
    | some rH =>
      refine ⟨[⟨[], [], [], false⟩, rH, ⟨[], [], [], false⟩], ?_, rfl, rfl, rfl⟩
      have hsp : splitWS [' ',' ','h','e','l','l','o',' ',' ']
          = [[], ['h','e','l','l','o'], []] := rfl
      have hptH : processToken d ['h','e','l','l','o']
          = processWord d ['h','e','l','l','o'] [] [] := rfl
      unfold lyricize
      rw [hsp]
      simp only [mapOpt, hptH, hh]
      rfl

/-- Claim C2, witness: the theorem applied to `sampleDict` and "  hello  ". -/
theorem C2_witness :
    lyricize sampleDict [' ',' ','h','e','l','l','o',' ',' '] =
      some [⟨[], [], [], false⟩,
            ⟨[['h','e','l'],['l','o']], ['h','e','l','-','l','o'], [2,0], true⟩,
            ⟨[], [], [], false⟩]
    ∧ ([⟨[], [], [], false⟩,
        ⟨[['h','e','l'],['l','o']], ['h','e','l','-','l','o'], [2,0], true⟩,
        ⟨[], [], [], false⟩] : List WordData).length
        = (splitWS [' ',' ','h','e','l','l','o',' ',' ']).length :=
  ⟨by decide,
    (C2_thm sampleDict [' ',' ','h','e','l','l','o',' ',' '] _ (by decide)).1⟩

/-- Claim C3: a record's `isKnown` is true iff the word was found in the
dictionary, directly or through the suffix loop; for a hyphen-containing
core, `isKnown` is the conjunction of the parts' flags. -/
theorem C3_thm (d : Dict) (orig p s : Str) (r : WordData) (h0 : orig ≠ [])
    (h : processWord d orig p s = some r) :
    (r.isKnown = true ↔ ((d (toLowerStr orig)).isSome = true
      ∨ ∃ wd, applySuffix d orig (toLowerStr orig) suffixes = some (some wd)))
    ∧ ∀ tok r' rs, tok ≠ [] → cleanOf tok ≠ [] → (cleanOf tok).contains '-' = true →
        mapOpt (fun part => processWord d part [] [])
          ((splitOnChar '-' (cleanOf tok)).filter (fun p => !p.isEmpty)) = some rs →
        processToken d tok = some r' →
        r'.isKnown = rs.all WordData.isKnown := by
  constructor
  · have hcl : toLowerStr orig ≠ [] := fun hc => h0 (List.map_eq_nil_iff.mp hc)
    rw [processWord_eq, if_neg hcl] at h
    split at h
    · rename_i wd hd
      simp only [Option.some.injEq] at h
      subst h
      simp [hd]
    · rename_i hd
      split at h
      · exact absurd h (by simp)
      · rename_i wd ha
        simp only [Option.some.injEq] at h
        subst h
        simp [hd, ha]
      · rename_i ha
        simp only [Option.some.injEq] at h
        subst h
        simp [hd, ha]
  · intro tok r' rs h1 h2 h3 hm hpt
    rw [processToken_eq, if_neg h1, if_neg h2, if_pos h3, hm] at hpt
    simp only [Option.some.injEq] at hpt
    subst hpt
    rfl

/-- Claim C3, witness: the theorem applied to `sampleDict` and "singing"
(a suffix-stripping hit, so `isKnown` is true). -/
theorem C3_witness :
    (['s','i','n','g','i','n','g'] : Str) ≠ []
    ∧ processWord sampleDict ['s','i','n','g','i','n','g'] [] [] =
        some ⟨[['s','i','n','g'],['i','n','g']], ['s','i','n','g','-','i','n','g'], [2,0], true⟩
    ∧ ((⟨[['s','i','n','g'],['i','n','g']], ['s','i','n','g','-','i','n','g'], [2,0], true⟩ :
        WordData).isKnown = true
      ↔ ((sampleDict (toLowerStr ['s','i','n','g','i','n','g'])).isSome = true
        ∨ ∃ wd, applySuffix sampleDict ['s','i','n','g','i','n','g']
            (toLowerStr ['s','i','n','g','i','n','g']) suffixes = some (some wd))) :=
  ⟨by decide, by decide,
    (C3_thm sampleDict ['s','i','n','g','i','n','g'] [] [] _ (by decide) (by decide)).1⟩

/-- Claim C4: with a dictionary whose entries have non-empty syllable
lists, `lyricize` never throws; a core found neither directly nor by any
suffix reduction yields the single-syllable fallback with the
original-cased core. -/
theorem C4_thm (d : Dict)
    (hwf : ∀ w e, d w = some e → e.syllables ≠ []) :
    (∀ s, ∃ l, lyricize d s = some l)
    ∧ (∀ orig p s, orig ≠ [] → d (toLowerStr orig) = none →
        applySuffix d orig (toLowerStr orig) suffixes = some none →
        processWord d orig p s = some ⟨[orig], p ++ orig ++ s, [0], false⟩) := by
  constructor
  · intro s
    cases hl : lyricize d s with
    | none => exact absurd hl (lyricize_ne_none hwf)
    | some l => exact ⟨l, rfl⟩
  · intro orig p s h0 hd hsfx
    have hcl : toLowerStr orig ≠ [] := fun hc => h0 (List.map_eq_nil_iff.mp hc)
    rw [processWord_eq, if_neg hcl, hd, hsfx]

/-- Claim C4, witness: the theorem applied to `sampleDict` and the unknown
word "xyzabc". -/
theorem C4_witness :
    (∀ w e, sampleDict w = some e → e.syllables ≠ [])
    ∧ (∃ l, lyricize sampleDict ['x','y','z','a','b','c'] = some l)
    ∧ processWord sampleDict ['x','y','z','a','b','c'] [] [] =
        some ⟨[['x','y','z','a','b','c']],
              [] ++ ['x','y','z','a','b','c'] ++ [], [0], false⟩ :=
  ⟨fun w e h => (sampleDict_wf w e h).2,
   (C4_thm sampleDict (fun w e h => (sampleDict_wf w e h).2)).1 ['x','y','z','a','b','c'],
   (C4_thm sampleDict (fun w e h => (sampleDict_wf w e h).2)).2 ['x','y','z','a','b','c'] [] []
     (by decide) (by decide) (by decide)⟩

/-- A rule whose suffix does not match the end of the word contributes
nothing to the loop. -/
theorem tryRule_nomatch {d : Dict} {o c : Str} {r : SuffixRule}
    (h : endsWith c r.sfx = false) : tryRule d o c r = some none := by
  unfold tryRule
  rw [if_neg]
  simp [h]

/-- A rule whose suffix matches but whose base is absent from the
dictionary contributes nothing to the loop. -/
theorem tryRule_nobase {d : Dict} {o c : Str} {r : SuffixRule}
    (hm : endsWith c r.sfx = true)
    (h : d (dropLastN c r.sfx.length ++ r.replace) = none) :
    tryRule d o c r = some none := by
  unfold tryRule
  rw [if_pos hm, h]

/-- The suffix loop is governed by the first rule that scores a hit: if all
rules before `r` contribute nothing, the loop's result is `r`'s result. -/
theorem applySuffix_first_hit (d : Dict) (o c : Str)
    (rules₁ : List SuffixRule) (r : SuffixRule) (rules₂ : List SuffixRule)
    (hmiss : ∀ r' ∈ rules₁, tryRule d o c r' = some none)
    (hhit : tryRule d o c r ≠ some none) :
    applySuffix d o c (rules₁ ++ r :: rules₂) = tryRule d o c r := by
  induction rules₁ with
  | nil =>
    simp only [List.nil_append]
    unfold applySuffix
    cases ht : tryRule d o c r with
    | none => rfl
    | some ow =>
      cases ow with
      | none => exact absurd ht hhit
      | some wd => rfl
  | cons r' rest ih =>
    simp only [List.cons_append]
    unfold applySuffix
    rw [hmiss r' (List.mem_cons_self r' rest)]
    exact ih (fun x hx => hmiss x (List.mem_cons_of_mem r' hx))

/-- Claim C5: the suffix table is exactly s, es, ed, ing, ly, d in that
order, and the first rule that matches the end of the word with its base
in the dictionary decides the loop's result; later rules are not tried. -/
theorem C5_thm (d : Dict) (o c : Str)
    (rules₁ : List SuffixRule) (r : SuffixRule) (rules₂ : List SuffixRule)
    (hdec : suffixes = rules₁ ++ r :: rules₂)
    (hmiss : ∀ r' ∈ rules₁, tryRule d o c r' = some none)
    (hhit : tryRule d o c r ≠ some none) :
    suffixes.map SuffixRule.sfx = [['s'], ['e','s'], ['e','d'], ['i','n','g'], ['l','y'], ['d']]
    ∧ applySuffix d o c suffixes = tryRule d o c r := by
  refine ⟨by decide, ?_⟩
  rw [hdec]
  exact applySuffix_first_hit d o c rules₁ r rules₂ hmiss hhit

/-- Claim C5, witness: for "singing" against `sampleDict`, the rules s, es,
ed all miss and the loop's result is the ing rule's result. -/
theorem C5_witness :
    (∀ r' ∈ ([⟨['s'], [], none⟩, ⟨['e','s'], [], some ['e','s']⟩,
        ⟨['e','d'], [], some ['e','d']⟩] : List SuffixRule),
      tryRule sampleDict ['s','i','n','g','i','n','g'] ['s','i','n','g','i','n','g'] r'
        = some none)
    ∧ tryRule sampleDict ['s','i','n','g','i','n','g'] ['s','i','n','g','i','n','g']
        ⟨['i','n','g'], [], some ['i','n','g']⟩ ≠ some none
    ∧ applySuffix sampleDict ['s','i','n','g','i','n','g'] ['s','i','n','g','i','n','g'] suffixes
        = tryRule sampleDict ['s','i','n','g','i','n','g'] ['s','i','n','g','i','n','g']
            ⟨['i','n','g'], [], some ['i','n','g']⟩ :=
  ⟨by decide, by decide,
    (C5_thm sampleDict ['s','i','n','g','i','n','g'] ['s','i','n','g','i','n','g']
      [⟨['s'], [], none⟩, ⟨['e','s'], [], some ['e','s']⟩, ⟨['e','d'], [], some ['e','d']⟩]
      ⟨['i','n','g'], [], some ['i','n','g']⟩
      [⟨['l','y'], [], some ['l','y']⟩, ⟨['d'], [], none⟩]
      (by decide) (by decide) (by decide)).2⟩

/-- Claim C6: a lowercase core ending in "ed" whose base (final "d"
removed) is in the dictionary, after the five earlier rules all failed,
yields the base's syllables with the last one truncated by one character
followed by a new "ed" syllable with stress 0, and the base's hyphenated
form with its last character replaced by "-ed". -/
theorem C6_thm (d : Dict) (orig p s : Str) (wd : WordData)
    (hlow : toLowerStr orig = orig)
    (hup : orig ≠ toUpperStr orig)
    (hcap : orig ≠ capitalize (toLowerStr orig))
    (h0 : orig ≠ [])
    (hed : endsWith orig ['e','d'] = true)
    (hd1 : endsWith orig ['d'] = true)
    (hs : endsWith orig ['s'] = false)
    (hes : endsWith orig ['e','s'] = false)
    (hing : endsWith orig ['i','n','g'] = false)
    (hly : endsWith orig ['l','y'] = false)
    (hdir : d orig = none)
    (hbase2 : d (dropLastN orig 2) = none)
    (hbase1 : d (dropLastN orig 1) = some wd)
    (hne : wd.syllables ≠ []) :
    processWord d orig p s = some
      ⟨wd.syllables.dropLast ++ [dropLastN ((wd.syllables.getLast?).getD []) 1, ['e','d']],
       p ++ (dropLastN wd.hyphenated 1 ++ ['-','e','d']) ++ s,
       wd.stresses ++ [0], true⟩ := by
  have hpc : ∀ x, preserveCase orig x orig = x :=
    fun x => preserveCase_id x (fun _ => ⟨hup, hcap⟩)
  obtain ⟨last, hl⟩ : ∃ last, wd.syllables.getLast? = some last := by
    cases hl : wd.syllables.getLast? with
    | none => exact absurd (List.getLast?_eq_none_iff.mp hl) hne
    | some a => exact ⟨a, rfl⟩
  have hrec : reconstruct orig orig ⟨['d'], [], none⟩ wd = some
      { wd with
          syllables := wd.syllables.dropLast ++ [dropLastN last 1, ['e','d']],
          hyphenated := preserveCase orig (dropLastN wd.hyphenated 1 ++ ['-','e','d']) orig,
          stresses := wd.stresses ++ [0] } := by
    unfold reconstruct
    rw [if_neg (by decide : ¬(['d'] : Str) = ['s']), if_pos (by simp [hed]), hl]
  have htry : tryRule d orig orig ⟨['d'], [], none⟩ = some (some
      { wd with
          syllables := wd.syllables.dropLast ++ [dropLastN last 1, ['e','d']],
          hyphenated := preserveCase orig (dropLastN wd.hyphenated 1 ++ ['-','e','d']) orig,
          stresses := wd.stresses ++ [0] }) := by
    unfold tryRule
    rw [if_pos hd1, List.append_nil]
    rw [show dropLastN orig (List.length ['d']) = dropLastN orig 1 from rfl, hbase1]
    simp only [hrec]
  have hap : applySuffix d orig orig suffixes = some (some
      { wd with
          syllables := wd.syllables.dropLast ++ [dropLastN last 1, ['e','d']],
          hyphenated := preserveCase orig (dropLastN wd.hyphenated 1 ++ ['-','e','d']) orig,
          stresses := wd.stresses ++ [0] }) := by
    have hshape : suffixes =
        ([⟨['s'], [], none⟩, ⟨['e','s'], [], some ['e','s']⟩, ⟨['e','d'], [], some ['e','d']⟩,
          ⟨['i','n','g'], [], some ['i','n','g']⟩, ⟨['l','y'], [], some ['l','y']⟩] :
            List SuffixRule) ++ ⟨['d'], [], none⟩ :: [] := rfl
    rw [hshape, applySuffix_first_hit d orig orig _ _ _ ?_ ?_, htry]
    · intro r' hr'
      simp only [List.mem_cons, List.not_mem_nil, or_false] at hr'
      rcases hr' with rfl | rfl | rfl | rfl | rfl
      · exact tryRule_nomatch hs
      · exact tryRule_nomatch hes
      · refine tryRule_nobase hed ?_
        rw [List.append_nil]
        exact hbase2
      · exact tryRule_nomatch hing
      · exact tryRule_nomatch hly
    · rw [htry]
      simp
  have hcl : toLowerStr orig ≠ [] := by rw [hlow]; exact h0
  rw [processWord_eq, hlow, if_neg h0, hdir, hap]
  simp only [hpc, hl, Option.getD_some]

/-- Claim C6, witness: "translated" against `sampleDict` (base "translate",
syllables trans·late) yields trans·lat·ed with stresses 0,0,0. -/
theorem C6_witness :
    toLowerStr ['t','r','a','n','s','l','a','t','e','d'] = ['t','r','a','n','s','l','a','t','e','d']
    ∧ sampleDict ['t','r','a','n','s','l','a','t','e','d'] = none
    ∧ sampleDict (dropLastN ['t','r','a','n','s','l','a','t','e','d'] 2) = none
    ∧ sampleDict (dropLastN ['t','r','a','n','s','l','a','t','e','d'] 1) =
        some ⟨[['t','r','a','n','s'],['l','a','t','e']],
              ['t','r','a','n','s','-','l','a','t','e'], [0,0], true⟩
    ∧ processWord sampleDict ['t','r','a','n','s','l','a','t','e','d'] [] [] = some
        ⟨([['t','r','a','n','s'],['l','a','t','e']] : List Str).dropLast ++
            [dropLastN ((([['t','r','a','n','s'],['l','a','t','e']] : List Str).getLast?).getD []) 1,
             ['e','d']],
         [] ++ (dropLastN ['t','r','a','n','s','-','l','a','t','e'] 1 ++ ['-','e','d']) ++ [],
         ([0,0] : List Nat) ++ [0], true⟩ :=
  ⟨by decide, by decide, by decide, by decide,
    C6_thm sampleDict ['t','r','a','n','s','l','a','t','e','d'] [] []
      ⟨[['t','r','a','n','s'],['l','a','t','e']], ['t','r','a','n','s','-','l','a','t','e'], [0,0], true⟩
      (by decide) (by decide) (by decide) (by decide) (by decide) (by decide) (by decide)
      (by decide) (by decide) (by decide) (by decide) (by decide) (by decide) (by decide)⟩

/-- Claim C7: a hyphen-containing core is split on "-" with empty parts
discarded, each part resolved with empty affixes, and the record's
syllables and stresses are the concatenations of the parts' lists; the
split of "pre--post" collapses the double hyphen. -/
theorem C7_thm (d : Dict) (tok : Str) (rs : List WordData)
    (h0 : tok ≠ []) (h1 : cleanOf tok ≠ []) (h2 : (cleanOf tok).contains '-' = true)
    (hm : mapOpt (fun part => processWord d part [] [])
        ((splitOnChar '-' (cleanOf tok)).filter (fun p => !p.isEmpty)) = some rs) :
    ((splitOnChar '-' ['p','r','e','-','-','p','o','s','t']).filter (fun p => !p.isEmpty)
        = [['p','r','e'], ['p','o','s','t']])
    ∧ processToken d tok = some
        ⟨joinAll (rs.map WordData.syllables),
         prefixOf tok ++ preserveCase tok (joinSep '-' (rs.map WordData.hyphenated)) (cleanOf tok)
           ++ suffixOf tok,
         joinAll (rs.map WordData.stresses),
         rs.all WordData.isKnown⟩ := by
  refine ⟨by decide, ?_⟩
  rw [processToken_eq, if_neg h0, if_neg h1, if_pos h2, hm]

/-- Claim C7, witness: "life-renewing" against `sampleDict` resolves to
life·re·new·ing with stresses 0,0,2,0. -/
theorem C7_witness :
    mapOpt (fun part => processWord sampleDict part [] [])
        ((splitOnChar '-' (cleanOf ['l','i','f','e','-','r','e','n','e','w','i','n','g'])).filter
          (fun p => !p.isEmpty))
      = some [⟨[['l','i','f','e']], ['l','i','f','e'], [0], true⟩,
              ⟨[['r','e'],['n','e','w'],['i','n','g']], ['r','e','-','n','e','w','-','i','n','g'],
                [0,2,0], true⟩]
    ∧ processToken sampleDict ['l','i','f','e','-','r','e','n','e','w','i','n','g'] = some
        ⟨joinAll (([⟨[['l','i','f','e']], ['l','i','f','e'], [0], true⟩,
              ⟨[['r','e'],['n','e','w'],['i','n','g']], ['r','e','-','n','e','w','-','i','n','g'],
                [0,2,0], true⟩] : List WordData).map WordData.syllables),
         prefixOf ['l','i','f','e','-','r','e','n','e','w','i','n','g'] ++
           preserveCase ['l','i','f','e','-','r','e','n','e','w','i','n','g']
             (joinSep '-' (([⟨[['l','i','f','e']], ['l','i','f','e'], [0], true⟩,
              ⟨[['r','e'],['n','e','w'],['i','n','g']], ['r','e','-','n','e','w','-','i','n','g'],
                [0,2,0], true⟩] : List WordData).map WordData.hyphenated))
             (cleanOf ['l','i','f','e','-','r','e','n','e','w','i','n','g']) ++
           suffixOf ['l','i','f','e','-','r','e','n','e','w','i','n','g'],
         joinAll (([⟨[['l','i','f','e']], ['l','i','f','e'], [0], true⟩,
              ⟨[['r','e'],['n','e','w'],['i','n','g']], ['r','e','-','n','e','w','-','i','n','g'],
                [0,2,0], true⟩] : List WordData).map WordData.stresses),
         ([⟨[['l','i','f','e']], ['l','i','f','e'], [0], true⟩,
              ⟨[['r','e'],['n','e','w'],['i','n','g']], ['r','e','-','n','e','w','-','i','n','g'],
                [0,2,0], true⟩] : List WordData).all WordData.isKnown⟩
    ∧ processToken sampleDict ['l','i','f','e','-','r','e','n','e','w','i','n','g'] = some
        ⟨[['l','i','f','e'],['r','e'],['n','e','w'],['i','n','g']],
         ['l','i','f','e','-','r','e','-','n','e','w','-','i','n','g'],
         [0,0,2,0], true⟩ :=
  ⟨by decide,
   (C7_thm sampleDict ['l','i','f','e','-','r','e','n','e','w','i','n','g'] _
     (by decide) (by decide) (by decide) (by decide)).2,
   by decide⟩

/-- A direct dictionary hit in `processWord`. -/
theorem processWord_direct (d : Dict) (o p s : Str) {wd : WordData}
    (h0 : toLowerStr o ≠ []) (h : d (toLowerStr o) = some wd) :
    processWord d o p s = some { wd with
      hyphenated := p ++ preserveCase o wd.hyphenated (toLowerStr o) ++ s,
      isKnown := true } := by
  rw [processWord_eq, if_neg h0, h]

/-- Every `processWord` result's hyphenated field is the given pre/suf
decoration around some middle. -/
theorem processWord_decor {d : Dict} {o p s : Str} {r : WordData}
    (h : processWord d o p s = some r) :
    ∃ mid, r.hyphenated = p ++ mid ++ s := by
  rw [processWord_eq] at h
  split at h
  · simp only [Option.some.injEq] at h
    subst h
    exact ⟨o, rfl⟩
  · split at h
    · rename_i wd hd
      simp only [Option.some.injEq] at h
      subst h
      exact ⟨preserveCase o wd.hyphenated (toLowerStr o), rfl⟩
    · split at h
      · exact absurd h (by simp)
      · rename_i wd ha
        simp only [Option.some.injEq] at h
        subst h
        exact ⟨preserveCase o wd.hyphenated (toLowerStr o), rfl⟩
      · simp only [Option.some.injEq] at h
        subst h
        exact ⟨o, rfl⟩

/-- `lyricize` on a one-token input. -/
theorem lyricize_single {d : Dict} {s tok : Str} {r : WordData}
    (hs : splitWS s = [tok]) (h : processToken d tok = some r) :
    lyricize d s = some [r] := by
  unfold lyricize
  rw [hs]
  simp [mapOpt, h]

/-- Claim C8, counterexample: for the non-empty token "1" the core is
empty, the output's hyphenated field is "1", while the claimed shape
prefix ++ (hyphenation of the core) ++ suffix would be "11" (both the
leading and the trailing non-letter run are the whole token). -/
theorem C8_cex :
    processToken emptyDict ['1'] = some ⟨[['1']], ['1'], [0], false⟩
    ∧ prefixOf ['1'] ++ ([] : Str) ++ suffixOf ['1'] = ['1','1']
    ∧ (['1'] : Str) ≠ ['1','1'] := by decide

/-- Claim C8 (amended): for every non-empty token whose core is non-empty,
the hyphenated output is prefix ++ middle ++ suffix with prefix/suffix the
maximal non-letter runs; the core drops every character that is neither a
letter nor a hyphen; decoration round-trips on "hello!", "'hello" and
"123hello456" when the dictionary maps hello to hel·lo. -/
theorem C8_thm (d : Dict)
    (hhello : d ['h','e','l','l','o'] =
      some ⟨[['h','e','l'],['l','o']], ['h','e','l','-','l','o'], [2,0], true⟩) :
    (∀ tok r, tok ≠ [] → cleanOf tok ≠ [] → processToken d tok = some r →
      ∃ mid, r.hyphenated = prefixOf tok ++ mid ++ suffixOf tok)
    ∧ cleanOf ['1','2','3','h','e','l','l','o','4','5','6'] = ['h','e','l','l','o']
    ∧ lyricize d ['h','e','l','l','o','!'] =
        some [⟨[['h','e','l'],['l','o']], ['h','e','l','-','l','o','!'], [2,0], true⟩]
    ∧ lyricize d ['\'','h','e','l','l','o'] =
        some [⟨[['h','e','l'],['l','o']], ['\'','h','e','l','-','l','o'], [2,0], true⟩]
    ∧ lyricize d ['1','2','3','h','e','l','l','o','4','5','6'] =
        some [⟨[['h','e','l'],['l','o']], ['1','2','3','h','e','l','-','l','o','4','5','6'],
          [2,0], true⟩] := by
  refine ⟨?_, by decide, ?_, ?_, ?_⟩
  · intro tok r h0 h1 hpt
    rw [processToken_eq, if_neg h0, if_neg h1] at hpt
    split at hpt
    · split at hpt
      · exact absurd hpt (by simp)
      · rename_i rs hm
        simp only [Option.some.injEq] at hpt
        subst hpt
        exact ⟨preserveCase tok (joinSep '-' (rs.map WordData.hyphenated)) (cleanOf tok), rfl⟩
    · exact processWord_decor hpt
  · have hs : splitWS ['h','e','l','l','o','!'] = [['h','e','l','l','o','!']] := rfl
    refine lyricize_single hs ?_
    have h1 : processToken d ['h','e','l','l','o','!']
        = processWord d ['h','e','l','l','o'] [] ['!'] := rfl
    rw [h1, processWord_direct d ['h','e','l','l','o'] [] ['!'] (by decide) hhello]
    decide
  · have hs : splitWS ['\'','h','e','l','l','o'] = [['\'','h','e','l','l','o']] := rfl
    refine lyricize_single hs ?_
    have h1 : processToken d ['\'','h','e','l','l','o']
        = processWord d ['h','e','l','l','o'] ['\''] [] := rfl
    rw [h1, processWord_direct d ['h','e','l','l','o'] ['\''] [] (by decide) hhello]
    decide
  · have hs : splitWS ['1','2','3','h','e','l','l','o','4','5','6']
        = [['1','2','3','h','e','l','l','o','4','5','6']] := rfl
    refine lyricize_single hs ?_
    have h1 : processToken d ['1','2','3','h','e','l','l','o','4','5','6']
        = processWord d ['h','e','l','l','o'] ['1','2','3'] ['4','5','6'] := rfl
    rw [h1, processWord_direct d ['h','e','l','l','o'] ['1','2','3'] ['4','5','6']
      (by decide) hhello]
    decide

/-- Claim C8, witness: the amended claim applied to `sampleDict`. -/
theorem C8_witness :
    sampleDict ['h','e','l','l','o'] =
      some ⟨[['h','e','l'],['l','o']], ['h','e','l','-','l','o'], [2,0], true⟩
    ∧ lyricize sampleDict ['h','e','l','l','o','!'] =
        some [⟨[['h','e','l'],['l','o']], ['h','e','l','-','l','o','!'], [2,0], true⟩] :=
  ⟨by decide, (C8_thm sampleDict (by decide)).2.2.1⟩

/-- Claim C9: case reconciliation fires only when the lowercased original
equals the clean core; the all-uppercase check precedes the title-case
check and at most one transformation applies; "HELLO", "Hello" and
"hello" resolve to "HEL-LO", "Hel-lo" and "hel-lo" respectively when the
dictionary maps hello to hel·lo. -/
theorem C9_thm (orig hyph clean : Str) (d : Dict)
    (hhello : d ['h','e','l','l','o'] =
      some ⟨[['h','e','l'],['l','o']], ['h','e','l','-','l','o'], [2,0], true⟩) :
    (toLowerStr orig ≠ clean → preserveCase orig hyph clean = hyph)
    ∧ (toLowerStr orig = clean → orig = toUpperStr orig →
        preserveCase orig hyph clean = toUpperStr hyph)
    ∧ (toLowerStr orig = clean → orig ≠ toUpperStr orig →
        orig = capitalize (toLowerStr orig) →
        preserveCase orig hyph clean = capitalize hyph)
    ∧ (toLowerStr orig = clean → orig ≠ toUpperStr orig →
        orig ≠ capitalize (toLowerStr orig) →
        preserveCase orig hyph clean = hyph)
    ∧ lyricize d ['H','E','L','L','O'] =
        some [⟨[['h','e','l'],['l','o']], ['H','E','L','-','L','O'], [2,0], true⟩]
    ∧ lyricize d ['H','e','l','l','o'] =
        some [⟨[['h','e','l'],['l','o']], ['H','e','l','-','l','o'], [2,0], true⟩]
    ∧ lyricize d ['h','e','l','l','o'] =
        some [⟨[['h','e','l'],['l','o']], ['h','e','l','-','l','o'], [2,0], true⟩] := by
  refine ⟨?_, ?_, ?_, ?_, ?_, ?_, ?_⟩
  · intro hg
    unfold preserveCase
    rw [if_neg hg]
  · intro hg hu
    unfold preserveCase
    rw [if_pos hg, if_pos hu]
  · intro hg hu hc
    unfold preserveCase
    rw [if_pos hg, if_neg hu, if_pos hc]
  · intro hg hu hc
    unfold preserveCase
    rw [if_pos hg, if_neg hu, if_neg hc]
  · have hs : splitWS ['H','E','L','L','O'] = [['H','E','L','L','O']] := rfl
    refine lyricize_single hs ?_
    have h1 : processToken d ['H','E','L','L','O']
        = processWord d ['H','E','L','L','O'] [] [] := rfl
    rw [h1, processWord_direct d ['H','E','L','L','O'] [] [] (by decide) hhello]
    decide
  · have hs : splitWS ['H','e','l','l','o'] = [['H','e','l','l','o']] := rfl
    refine lyricize_single hs ?_
    have h1 : processToken d ['H','e','l','l','o']
        = processWord d ['H','e','l','l','o'] [] [] := rfl
    rw [h1, processWord_direct d ['H','e','l','l','o'] [] [] (by decide) hhello]
    decide
  · have hs : splitWS ['h','e','l','l','o'] = [['h','e','l','l','o']] := rfl
    refine lyricize_single hs ?_
    have h1 : processToken d ['h','e','l','l','o']
        = processWord d ['h','e','l','l','o'] [] [] := rfl
    rw [h1, processWord_direct d ['h','e','l','l','o'] [] [] (by decide) hhello]
    decide

/-- Claim C9, witness: the theorem applied to "Hello" (title case) with
`sampleDict`. -/
theorem C9_witness :
    sampleDict ['h','e','l','l','o'] =
      some ⟨[['h','e','l'],['l','o']], ['h','e','l','-','l','o'], [2,0], true⟩
    ∧ (toLowerStr ['H','e','l','l','o'] = ['h','e','l','l','o'] →
        (['H','e','l','l','o'] : Str) ≠ toUpperStr ['H','e','l','l','o'] →
        (['H','e','l','l','o'] : Str) = capitalize (toLowerStr ['H','e','l','l','o']) →
        preserveCase ['H','e','l','l','o'] ['h','e','l','-','l','o'] ['h','e','l','l','o']
          = capitalize ['h','e','l','-','l','o'])
    ∧ lyricize sampleDict ['H','E','L','L','O'] =
        some [⟨[['h','e','l'],['l','o']], ['H','E','L','-','L','O'], [2,0], true⟩] :=
  ⟨by decide,
   (C9_thm ['H','e','l','l','o'] ['h','e','l','-','l','o'] ['h','e','l','l','o']
     sampleDict (by decide)).2.2.1,
   (C9_thm ['H','e','l','l','o'] ['h','e','l','-','l','o'] ['h','e','l','l','o']
     sampleDict (by decide)).2.2.2.2.1⟩

/-- `takeWhile` keeps the whole list when the predicate holds everywhere. -/
theorem takeWhile_all {p : Char → Bool} :
    ∀ l : Str, (∀ c ∈ l, p c = true) → l.takeWhile p = l := by
  intro l h
  induction l with
  | nil => rfl
  | cons c rest ih =>
    rw [List.takeWhile_cons_of_pos (h c (List.mem_cons_self c rest))]
    rw [ih (fun x hx => h x (List.mem_cons_of_mem c hx))]

/-- Splitting a string consisting only of separators yields only empty
pieces. -/
theorem splitOnCharAux_all_sep {sep : Char} :
    ∀ l : Str, (∀ c ∈ l, c = sep) → ∀ x ∈ splitOnCharAux sep [] l, x = [] := by
  intro l
  induction l with
  | nil =>
    intro _ x hx
    simp only [splitOnCharAux, List.mem_singleton] at hx
    simpa using hx
  | cons c rest ih =>
    intro h x hx
    rw [splitOnCharAux, if_pos (h c (List.mem_cons_self c rest))] at hx
    rcases List.mem_cons.mp hx with hx | hx
    · simpa using hx
    · exact ih (fun y hy => h y (List.mem_cons_of_mem c hy)) x hx

/-- Claim C10: a non-empty token with a hyphen but no letters resolves to
zero parts: empty syllables and stresses, vacuously true `isKnown`, and a
hyphenated field that doubles the token (both non-letter runs are the
whole token). -/
theorem C10_thm (d : Dict) (tok : Str) (h0 : tok ≠ [])
    (hletterless : tok.all (fun c => !isAsciiLetter c) = true)
    (hhyp : tok.contains '-' = true) :
    prefixOf tok = tok ∧ suffixOf tok = tok
    ∧ processToken d tok = some ⟨[], tok ++ tok, [], true⟩ := by
  have hall : ∀ c ∈ tok, isAsciiLetter c = false := by
    intro c hc
    have := List.all_eq_true.mp hletterless c hc
    simpa using this
  have hpre : prefixOf tok = tok :=
    takeWhile_all tok (fun c hc => by rw [hall c hc]; rfl)
  have hsuf : suffixOf tok = tok := by
    unfold suffixOf
    rw [takeWhile_all tok.reverse
      (fun c hc => by rw [hall c (List.mem_reverse.mp hc)]; rfl)]
    exact List.reverse_reverse tok
  have hmem : '-' ∈ tok := List.mem_of_elem_eq_true hhyp
  have hcleanall : ∀ c ∈ cleanOf tok, c = '-' := by
    intro c hc
    rcases List.mem_filter.mp hc with ⟨hctok, hcond⟩
    rw [hall c hctok] at hcond
    simpa using hcond
  have hclmem : '-' ∈ cleanOf tok :=
    List.mem_filter.mpr ⟨hmem, by decide⟩
  have hclne : cleanOf tok ≠ [] := by
    intro hnil
    rw [hnil] at hclmem
    exact absurd hclmem (List.not_mem_nil '-')
  have hclcontains : (cleanOf tok).contains '-' = true :=
    List.elem_eq_true_of_mem hclmem
  have hparts : (splitOnChar '-' (cleanOf tok)).filter (fun p => !p.isEmpty) = [] := by
    rw [List.filter_eq_nil_iff]
    intro x hx
    have hxnil : x = [] := splitOnCharAux_all_sep (cleanOf tok) hcleanall x hx
    subst hxnil
    simp
  refine ⟨hpre, hsuf, ?_⟩
  rw [processToken_eq, if_neg h0, if_neg hclne, if_pos hclcontains, hparts]
  simp only [mapOpt, List.map_nil, joinAll, joinSep, List.all_nil]
  rw [preserveCase_nil]
  rw [hpre, hsuf]
  simp

/-- Claim C10, witness: the token "--" yields the empty-parts record and
`lyricize` on "--" returns hyphenated "----". -/
theorem C10_witness :
    (['-','-'] : Str) ≠ []
    ∧ (['-','-'] : Str).all (fun c => !isAsciiLetter c) = true
    ∧ (['-','-'] : Str).contains '-' = true
    ∧ processToken emptyDict ['-','-'] = some ⟨[], ['-','-'] ++ ['-','-'], [], true⟩
    ∧ lyricize emptyDict ['-','-'] = some [⟨[], ['-','-','-','-'], [], true⟩] :=
  ⟨by decide, by decide, by decide,
   (C10_thm emptyDict ['-','-'] (by decide) (by decide) (by decide)).2.2,
   by decide⟩

/-- A dictionary with an entry whose syllables list is empty: the base
"xe" found by the d-suffix rule for input "xed". -/
def edThrowDict : Dict := fun w =>
  if w = ['x','e'] then some ⟨[], [], [], true⟩ else none

/-- Claim C4, counterexample: with an entry whose syllables list is empty,
the d-suffix branch evaluates `lastSyllable.slice` on `undefined` — the
modelled `TypeError` — so `lyricize` does throw on "xed". -/
theorem C4_cex : lyricize edThrowDict ['x','e','d'] = none := by decide
